import Mathlib

/-!
Verification development for the watch-tower durable log ingestion pipeline.

Shallow embedding of the durability and delivery engine:
  * the Redis-backed buffer repository with WAL failover
    (src/unnamed/part_004, src/internal/adapter/repository/redis/log_repository.go),
  * the file-based write-ahead log (src/internal/adapter/repository/wal/wal_repository.go),
  * the consumer pipeline (src/internal/usecase/process_logs.go),
  * the PostgreSQL sink (src/internal/adapter/repository/postgres/log_repository.go),
  * the ingest HTTP path (src/internal/adapter/api/handler/ingest_handler.go,
    src/internal/usecase/ingest_log.go).

External effects (Redis commands, disk writes, the SQL engine, timers) are modelled
by explicit oracles recording which calls succeed; the control flow of each Go
function is translated statement by statement.
-/

namespace WatchTower

/-- Canonical log event record (src/internal/domain/log.go, src/unnamed/part_001).
Times are modelled as abstract ticks; `metadata` as an opaque string. -/
structure LogEvent where
  id : String
  receivedAt : Nat
  eventTime : Nat
  source : String
  level : String
  message : String
  metadata : String
  piiRedacted : Bool
  streamMessageID : String
  deriving DecidableEq, Repr

/-- Zero value of `domain.LogEvent`, as produced by `json.Unmarshal` for absent fields. -/
def LogEvent.zero : LogEvent :=
  { id := "", receivedAt := 0, eventTime := 0, source := "", level := "",
    message := "", metadata := "", piiRedacted := false, streamMessageID := "" }

/-! ## Buffer path: redis.LogRepository.BufferLog and usecase.Ingest -/

/-- Outcome of the Redis `XAdd` call inside `bufferLogToRedis`:
success, a network-classified error (`isNetworkError` true), or another error. -/
inductive RedisRes where
  | ok
  | netErr
  | otherErr
  deriving DecidableEq, Repr

/-- Oracles for one `BufferLog` call: the availability flag read at entry,
whether a WAL is configured, whether `json.Marshal` of the event succeeds,
the `XAdd` outcome if attempted, and the WAL `Write` outcome if attempted. -/
structure BufEnv where
  available : Bool
  hasWAL : Bool
  marshalOk : Bool
  xadd : RedisRes
  walWriteOk : Bool
  deriving DecidableEq, Repr

/-- Success-effects of a `BufferLog` call: whether the `XAdd` to the
`log_events` stream succeeded and whether `wal.Write` returned nil. -/
structure BufEffects where
  xadded : Bool
  walWritten : Bool
  flagAfter : Bool
  deriving DecidableEq, Repr

/-- Result of a Go call that returns `error`. -/
inductive GoRes where
  | ok
  | err
  deriving DecidableEq, Repr

/-- Embedding of `bufferLogToRedis` (src/unnamed/part_004 lines 167-182):
marshal the event, then `XAdd` it under the `payload` key. -/
def bufferLogToRedis (env : BufEnv) : GoRes :=
  if env.marshalOk then
    match env.xadd with
    | .ok => .ok
    | _ => .err
  else .err

/-- Embedding of `redis.LogRepository.BufferLog` (src/unnamed/part_004 lines 135-165;
the variant in src/internal/adapter/repository/redis/log_repository.go lines 116-140 has
identical control flow).  Returns the Go result together with the durable effects. -/
def bufferLog (env : BufEnv) : GoRes × BufEffects :=
  if !env.available then
    if !env.hasWAL then
      (.err, ⟨false, false, false⟩)
    else
      ((if env.walWriteOk then .ok else .err), ⟨false, env.walWriteOk, false⟩)
  else
    match bufferLogToRedis env with
    | .ok => (.ok, ⟨true, false, true⟩)
    | .err =>
      -- an error was returned; `isNetworkError` distinguishes the fallback path
      if env.marshalOk ∧ env.xadd = .netErr then
        -- CompareAndSwap(true, false), then fall back to the WAL
        if !env.hasWAL then
          (.err, ⟨false, false, false⟩)
        else
          ((if env.walWriteOk then .ok else .err), ⟨false, env.walWriteOk, false⟩)
      else
        (.err, ⟨false, false, true⟩)

/-- Embedding of `usecase.IngestLogUseCase.Ingest` (src/internal/usecase/ingest_log.go
lines 30-51): enrich the event (set `ReceivedAt`; mint an id when empty), redact PII
(failures are non-fatal), then call `BufferLog` and propagate its result. -/
def ingest (env : BufEnv) (fresh : String) (now : Nat) (e : LogEvent) :
    GoRes × BufEffects × LogEvent :=
  let e1 := { e with receivedAt := now, id := if e.id = "" then fresh else e.id }
  let r := bufferLog env
  (r.1, r.2, e1)

/-! ## Consumer pipeline: writeWithRetry and ProcessBatch
(src/internal/usecase/process_logs.go) -/

/-- Oracles for one `writeWithRetry` call: the result of the `i`-th (0-indexed)
`WriteLogBatch` attempt, whether `ctx.Err()` is non-nil at the break check after
attempt `i`, and whether `ctx.Done()` fires during the backoff sleep after attempt `i`. -/
structure RetryEnv where
  sinkOk : Nat → Bool
  ctxDoneAt : Nat → Bool
  cancelDuringSleep : Nat → Bool

/-- Observable step of `writeWithRetry`: a sink attempt or a completed backoff sleep
of the given duration. -/
inductive RetryStep where
  | attempt (i : Nat)
  | sleep (d : Nat)
  deriving DecidableEq, Repr

/-- Result of `writeWithRetry` as a Go error value: nil, the last sink error,
or `ctx.Err()`. -/
inductive RetryRes where
  | nilErr
  | sinkErr
  | ctxErr
  deriving DecidableEq, Repr

/-- Loop body of `writeWithRetry` (src/internal/usecase/process_logs.go lines 78-103),
unrolled on the remaining iteration count (`fuel = rc - i`).  The delay before the
next attempt is `backoff * 2 ^ i` (the Go code computes it through `float64` and
`math.Pow`; the product is exact for every value below `2 ^ 53` nanoseconds, which
covers all realistic configurations). -/
def retryAux (env : RetryEnv) (rc b : Nat) : Nat → Nat → RetryRes → List RetryStep × RetryRes
  | 0, _, last => ([], last)
  | fuel + 1, i, _ =>
    if env.sinkOk i then ([.attempt i], .nilErr)
    else if i = rc - 1 ∨ env.ctxDoneAt i = true then ([.attempt i], .sinkErr)
    else if env.cancelDuringSleep i then ([.attempt i], .ctxErr)
    else
      let rest := retryAux env rc b fuel (i + 1) .sinkErr
      (.attempt i :: .sleep (b * 2 ^ i) :: rest.1, rest.2)

/-- Embedding of `writeWithRetry`: run the loop from `i = 0` with `retryCount`
iterations available and `lastErr = nil`. -/
def writeWithRetry (env : RetryEnv) (rc b : Nat) : List RetryStep × RetryRes :=
  retryAux env rc b rc 0 .nilErr

/-- Test whether a step is a sink attempt. -/
def isAttempt : RetryStep → Bool
  | .attempt _ => true
  | .sleep _ => false

/-- Number of `WriteLogBatch` attempts recorded in a trace. -/
def countAttempts (tr : List RetryStep) : Nat := (tr.filter isAttempt).length

/-- Durations of the completed backoff sleeps recorded in a trace, in order. -/
def sleepsOf (tr : List RetryStep) : List Nat :=
  tr.filterMap fun s => match s with | .sleep d => some d | _ => none

/-- Result of `ReadLogBatch` as seen by `ProcessBatch`: an error or a batch. -/
inductive ReadRes where
  | readErr
  | batch (events : List LogEvent)

/-- Oracles for one `ProcessBatch` iteration. -/
structure ProcEnv where
  read : ReadRes
  retry : RetryEnv
  dlqOk : Bool
  ackOk : Bool

/-- Repository calls made by `ProcessBatch`, in order. -/
inductive ProcStep where
  | readStep
  | writeStep
  | dlqStep
  | ackStep
  deriving DecidableEq, Repr

/-- Return value of `ProcessBatch`: the processed count on success, or the
propagated error. -/
inductive ProcRes where
  | ok (n : Nat)
  | readFail
  | dlqFail
  | ackFail
  deriving DecidableEq, Repr

/-- Embedding of `ProcessBatch` (src/internal/usecase/process_logs.go lines 42-76):
read a batch; if non-empty, write with retries; on write failure move the batch to
the DLQ (propagating a DLQ failure without acking); otherwise acknowledge the
batch and return its size. -/
def processBatch (env : ProcEnv) (rc b : Nat) : List ProcStep × ProcRes :=
  match env.read with
  | .readErr => ([.readStep], .readFail)
  | .batch events =>
    if events.length = 0 then ([.readStep], .ok 0)
    else
      match (writeWithRetry env.retry rc b).2 with
      | .nilErr =>
        if env.ackOk then ([.readStep, .writeStep, .ackStep], .ok events.length)
        else ([.readStep, .writeStep, .ackStep], .ackFail)
      | _ =>
        if env.dlqOk then
          if env.ackOk then ([.readStep, .writeStep, .dlqStep, .ackStep], .ok events.length)
          else ([.readStep, .writeStep, .dlqStep, .ackStep], .ackFail)
        else ([.readStep, .writeStep, .dlqStep], .dlqFail)

/-- Retry environment in which every sink attempt fails and no cancellation occurs. -/
def retryEnvA : RetryEnv := ⟨fun _ => false, fun _ => false, fun _ => false⟩

/-- Retry environment in which every sink attempt fails and the context is
cancelled during the second backoff sleep. -/
def retryEnvB : RetryEnv := ⟨fun _ => false, fun _ => false, fun j => j == 1⟩

/-- Process environment with a one-event batch, an always-failing sink and a
failing DLQ. -/
def procEnvNoDLQ : ProcEnv := ⟨.batch [LogEvent.zero], retryEnvA, false, true⟩

/-- Process environment with a one-event batch, an always-failing sink and a
working DLQ. -/
def procEnvDLQ : ProcEnv := ⟨.batch [LogEvent.zero], retryEnvA, true, true⟩

/-! ## WAL: wal.WALRepository
(src/internal/adapter/repository/wal/wal_repository.go)

A segment file is a list of newline-terminated lines.  A line either holds the
JSON of an event (`event e sz`: `sz` bytes of JSON before the terminating
newline) or fails `json.Unmarshal` (`junk sz`: `sz` bytes in total, covering
corrupt lines and a partial final line without newline).  Segment filenames are
`segment-<UnixNano>.log`; all suffixes have the same digit count in practice, so
the lexicographic sort of `getSortedSegments` coincides with the numeric order
of the suffix, which is how names are modelled.  Disk probes (`os.ReadDir`,
`entry.Info`) are driven by a `scanOk` oracle; `os.Remove`, file creation and
the in-segment append are modelled as succeeding, matching the paths the claims
quantify over. -/

/-- One line of a WAL segment file. -/
inductive WALLine where
  | event (e : LogEvent) (sz : Nat)
  | junk (sz : Nat)
  deriving DecidableEq, Repr

/-- On-disk byte count of a line (JSON bytes plus the terminating newline). -/
def lineSize : WALLine → Nat
  | .event _ sz => sz + 1
  | .junk sz => sz

/-- A segment file: numeric name suffix and content. -/
structure Segment where
  name : Nat
  lines : List WALLine
  deriving DecidableEq, Repr

/-- On-disk size of a segment file. -/
def segSize (s : Segment) : Nat := (s.lines.map lineSize).sum

/-- Total on-disk size of a list of segment files, as computed by
`calculateTotalSize` on a fresh directory scan (every segment file carries the
`segment-` prefix). -/
def diskSize (segs : List Segment) : Nat := (segs.map segSize).sum

/-- State of a `WALRepository`: the segment files on disk, the name of the open
active segment (`currentSegment`, `none` after `Replay` closed it), the
`currentSize` counter, and the strictly increasing name source standing for
`time.Now().UnixNano()`. -/
structure WALState where
  segments : List Segment
  current : Option Nat
  currentSize : Nat
  clock : Nat
  deriving DecidableEq, Repr

/-- Configuration of a `WALRepository` plus the serialization oracle:
`encSize e` is the length of `json.Marshal(e)` and `marshalOk e` tells whether
marshalling succeeds. -/
structure WALConfig where
  maxSegmentSize : Nat
  maxTotalSize : Nat
  encSize : LogEvent → Nat
  marshalOk : LogEvent → Bool

/-- Insert a segment into a name-sorted list. -/
def insertSeg (s : Segment) : List Segment → List Segment
  | [] => [s]
  | t :: ts => if s.name ≤ t.name then s :: t :: ts else t :: insertSeg s ts

/-- Embedding of `getSortedSegments`: the segment files sorted by name. -/
def sortSegs : List Segment → List Segment
  | [] => []
  | s :: ss => insertSeg s (sortSegs ss)

/-- Events recoverable from the lines of one segment: lines that fail
`json.Unmarshal` are skipped. -/
def segEvents : List WALLine → List LogEvent
  | [] => []
  | .event e _ :: rest => e :: segEvents rest
  | .junk _ :: rest => segEvents rest

/-- Events recoverable from a list of segments, in order. -/
def eventsOf (segs : List Segment) : List LogEvent :=
  (segs.map (fun s => segEvents s.lines)).flatten

/-- Events a full `Replay` with a never-failing handler would deliver:
segments visited in sorted filename order, lines in file order. -/
def replayEvents (st : WALState) : List LogEvent :=
  eventsOf (sortSegs st.segments)

/-- Append a line to the segment file with the given name (filenames are unique
on a real filesystem, so only the first match is touched). -/
def appendLine (n : Nat) (l : WALLine) : List Segment → List Segment
  | [] => []
  | s :: ss =>
    if s.name = n then { s with lines := s.lines ++ [l] } :: ss
    else s :: appendLine n l ss

/-- Embedding of `rotate` (wal_repository.go lines 178-201): sync and close the
outgoing segment, create a fresh empty segment named by the clock, reset the
size counter. -/
def walRotate (st : WALState) : WALState :=
  { segments := st.segments ++ [⟨st.clock, []⟩],
    current := some st.clock,
    currentSize := 0,
    clock := st.clock + 1 }

/-- Open-if-closed step at the top of `Write`: when `currentSegment` is nil,
`rotate` first. -/
def walRotateIfNil (st : WALState) : WALState :=
  if st.current.isNone then walRotate st else st

/-- Closing rotation check at the bottom of `Write`: rotate when the size
counter reached `maxSegmentSize` (a rotation failure is only logged). -/
def walMaybeRotate (cfg : WALConfig) (st : WALState) : WALState :=
  if cfg.maxSegmentSize ≤ st.currentSize then walRotate st else st

/-- Result of `Write` as a Go error value. -/
inductive WriteRes where
  | ok
  | marshalErr
  | scanErr
  | fullErr
  deriving DecidableEq, Repr

/-- Embedding of `Write` (wal_repository.go lines 57-96): marshal the event,
open the active segment if closed, recompute the total size by a fresh
directory scan, fail when the budget would be exceeded, otherwise append the
line, bump the counter and rotate if the segment is full. -/
def walWrite (cfg : WALConfig) (scanOk : Bool) (st : WALState) (e : LogEvent) :
    WALState × WriteRes :=
  if cfg.marshalOk e = false then (st, .marshalErr)
  else if scanOk = false then (walRotateIfNil st, .scanErr)
  else if cfg.maxTotalSize
      < diskSize (walRotateIfNil st).segments + (cfg.encSize e + 1) then
    (walRotateIfNil st, .fullErr)
  else
    (walMaybeRotate cfg
      { walRotateIfNil st with
        segments := appendLine ((walRotateIfNil st).current.getD 0)
          (.event e (cfg.encSize e)) (walRotateIfNil st).segments,
        currentSize := (walRotateIfNil st).currentSize + (cfg.encSize e + 1) },
     .ok)

/-- Line scan of one segment during `Replay`: lines that fail `json.Unmarshal`
are skipped with a warning; on handler failure the scan stops with the failing
event as the last one handed to the handler.  Returns the events passed to the
handler and whether the segment was fully replayed. -/
def replayLines (h : LogEvent → Bool) : List WALLine → List LogEvent × Bool
  | [] => ([], true)
  | .junk _ :: rest => replayLines h rest
  | .event e _ :: rest =>
    if h e then ((replayLines h rest).1.cons e, (replayLines h rest).2)
    else ([e], false)

/-- Segment loop of `Replay` over the sorted segment list. -/
def replaySegs (h : LogEvent → Bool) : List Segment → List LogEvent × Bool
  | [] => ([], true)
  | s :: ss =>
    if (replayLines h s.lines).2 then
      ((replayLines h s.lines).1 ++ (replaySegs h ss).1, (replaySegs h ss).2)
    else ((replayLines h s.lines).1, false)

/-- Embedding of `Replay` (wal_repository.go lines 99-151): close the active
segment, then scan segments in sorted filename order, calling the handler on
each parsed event; a handler error stops the replay and is propagated; no
segment file is deleted.  Returns the new state, the handler trace and the
success flag. -/
def walReplay (h : LogEvent → Bool) (st : WALState) :
    WALState × List LogEvent × Bool :=
  ({ st with current := none }, replaySegs h (sortSegs st.segments))

/-- Embedding of `Truncate` (wal_repository.go lines 154-176): close the active
segment, remove every segment file, then `openLatestSegment` finds an empty
directory and rotates to a fresh empty active segment. -/
def walTruncate (st : WALState) : WALState :=
  walRotate { st with segments := [], current := none }

/-- Embedding of `ReplayWAL` (src/unnamed/part_004 lines 99-124; the variant in
src/internal/adapter/repository/redis/log_repository.go lines 89-105 is
identical for this purpose): replay the WAL into Redis through the handler, and
truncate it only when the replay succeeded. -/
def replayWAL (h : LogEvent → Bool) (st : WALState) : WALState × Bool :=
  if (walReplay h st).2.2 then (walTruncate (walReplay h st).1, true)
  else ((walReplay h st).1, false)

/-- Prefix of a list of events up to and including the first handler failure. -/
def takeThroughFail (h : LogEvent → Bool) : List LogEvent → List LogEvent
  | [] => []
  | e :: es => if h e then e :: takeThroughFail h es else [e]

/-- Handler that always succeeds (Redis accepts every replayed event). -/
def hOk : LogEvent → Bool := fun _ => true

/-- Concrete WAL state with one segment holding one event. -/
def walSt0 : WALState := ⟨[⟨0, [.event LogEvent.zero 5]⟩], some 0, 6, 1⟩

/-- Concrete WAL state whose active segment is closed (as `Replay` leaves it)
while the size counter still holds its stale pre-replay value. -/
def walStNil : WALState := ⟨[⟨0, [.event LogEvent.zero 10]⟩], none, 7, 1⟩

/-- Concrete WAL state with one open segment holding one event. -/
def walStRoom : WALState := ⟨[⟨0, [.event LogEvent.zero 10]⟩], some 0, 11, 1⟩

/-- Concrete WAL configuration: 10-byte events, tiny total budget. -/
def walCfg0 : WALConfig := ⟨100, 12, fun _ => 10, fun _ => true⟩

/-- Concrete WAL configuration with room for one more event. -/
def walCfgRoom : WALConfig := ⟨100, 50, fun _ => 10, fun _ => true⟩

/-- Concrete WAL configuration whose serializer always fails. -/
def walCfgBadMarshal : WALConfig := ⟨100, 50, fun _ => 10, fun _ => false⟩

/-! ## Health-check loop: redis.LogRepository.StartHealthCheck
(src/unnamed/part_004 lines 56-96, the watch-tower module's redis repository;
the older log-ingestor variant in
src/internal/adapter/repository/redis/log_repository.go performs the
flag flip before the replay and reverts it on failure, but agrees at iteration
boundaries). -/

/-- Oracles for one tick of the health-check loop: whether the `Ping` probe
succeeds and, when a replay is started, whether `ReplayWAL` succeeds. -/
structure HealthTick where
  pingOk : Bool
  replayOk : Bool
  deriving DecidableEq, Repr

/-- One iteration of the health-check loop body (src/unnamed/part_004 lines
72-95): read `wasAvailable`; ping; on recovery (`ping` ok, was unavailable)
run `ReplayWAL` and store `true` only on replay success; on loss (`ping`
failed, was available) store `false`.  Returns the flag after the iteration
and the list of values stored to the flag during it, in order. -/
def healthStep (t : HealthTick) (wasAvailable : Bool) : Bool × List Bool :=
  if t.pingOk && !wasAvailable then
    if t.replayOk then (true, [true]) else (wasAvailable, [])
  else if !t.pingOk && wasAvailable then (false, [false])
  else (wasAvailable, [])

/-- Availability flag after a sequence of health-check iterations. -/
def healthLoop (ticks : List HealthTick) (init : Bool) : Bool :=
  ticks.foldl (fun fl t => (healthStep t fl).1) init

/-! ## Sink: postgres.LogRepository.WriteLogBatch
(src/internal/adapter/repository/postgres/log_repository.go lines 25-80) -/

/-- Columns of one row of the `logs` table other than the `event_id` key. -/
structure SinkRow where
  receivedAt : Nat
  eventTime : Nat
  source : String
  level : String
  message : String
  metadata : String
  deriving DecidableEq, Repr

/-- Row written for an event (the `stream_message_id`, `pii_redacted` and raw
fields are not persisted in the sink). -/
def toRow (e : LogEvent) : SinkRow :=
  ⟨e.receivedAt, e.eventTime, e.source, e.level, e.message, e.metadata⟩

/-- The `logs` table: association list from `event_id` to the remaining columns
(`event_id` is the primary key, so keys are unique). -/
abbrev SinkTable := List (String × SinkRow)

/-- Effect of `ON CONFLICT (event_id) DO UPDATE` for one staged row: replace
the columns of an existing row with that id, or insert a new row. -/
def upsertRow (t : SinkTable) (id : String) (r : SinkRow) : SinkTable :=
  match t with
  | [] => [(id, r)]
  | (i, x) :: rest => if i = id then (i, r) :: rest else (i, x) :: upsertRow rest id r

/-- Embedding of `WriteLogBatch`: an empty batch is a no-op; otherwise the
batch is staged into a temp table and merged with
`INSERT ... SELECT ... ON CONFLICT (event_id) DO UPDATE`.  PostgreSQL raises
`21000: ON CONFLICT DO UPDATE command cannot affect row a second time` when the
staged rows contain the same `event_id` twice, so a batch with duplicate ids
fails as a whole and the transaction rolls back (table unchanged, second
component `false`). -/
def writeLogBatch (t : SinkTable) (events : List LogEvent) : SinkTable × Bool :=
  if events.length = 0 then (t, true)
  else if (events.map (fun e => e.id)).Nodup then
    (events.foldl (fun acc e => upsertRow acc e.id (toRow e)) t, true)
  else (t, false)

/-- Table contents after a sequence of `WriteLogBatch` calls (a failed call
leaves the table unchanged). -/
def writeSeq (t : SinkTable) (batches : List (List LogEvent)) : SinkTable :=
  batches.foldl (fun acc B => (writeLogBatch acc B).1) t

/-- Columns of the last write for a given id within a sequence of events,
if any (last-writer-wins). -/
def lastRowFor (id : String) (es : List LogEvent) : Option SinkRow :=
  es.foldl (fun acc e => if e.id = id then some (toRow e) else acc) none

/-- Concrete event with id `a`. -/
def eA : LogEvent :=
  { LogEvent.zero with id := "a", message := "m1" }

/-- Concrete second event with the same id `a` but different columns. -/
def eA2 : LogEvent :=
  { LogEvent.zero with id := "a", message := "m2" }

/-! ## Ingest HTTP path: handleSingleJSON
(src/internal/adapter/api/handler/ingest_handler.go lines 83-104) -/

/-- Single-event JSON payload as `json.Unmarshal` sees it: either the body is
not valid JSON, or it decodes with each field either present or absent (an
absent field leaves the Go zero value).  Only the fields that could affect
acceptance are tracked. -/
structure SinglePayload where
  malformedJSON : Bool
  idField : Option String
  messageField : Option String
  deriving DecidableEq, Repr

/-- Embedding of the `json.Unmarshal` call of `handleSingleJSON`: a malformed
body errors; otherwise absent fields decode to zero values.  No validation of
`message` presence or of the `id` format takes place. -/
def decodeSingle (p : SinglePayload) : Option LogEvent :=
  if p.malformedJSON then none
  else some { LogEvent.zero with
    id := p.idField.getD "", message := p.messageField.getD "" }

/-- HTTP status written by `ServeHTTP` for a single-JSON request (a non-size
error from `handleSingleJSON` maps to 400). -/
inductive HTTPStatus where
  | accepted
  | badRequest
  deriving DecidableEq, Repr

/-- Embedding of `handleSingleJSON` followed by `ServeHTTP`'s error mapping:
parse the body, ingest the event, answer 202 on success and 400 on a parse or
buffering error.  The second component is the enriched event handed to
`BufferLog` when ingestion succeeded. -/
def handleSingleJSON (env : BufEnv) (fresh : String) (now : Nat)
    (p : SinglePayload) : HTTPStatus × Option LogEvent :=
  match decodeSingle p with
  | none => (.badRequest, none)
  | some e =>
    match ingest env fresh now e with
    | (.ok, _, e1) => (.accepted, some e1)
    | (.err, _, _) => (.badRequest, none)

/-- Concrete payload: well-formed JSON, no `message` field, and a non-empty
`event_id` that is not a well-formed UUID. -/
def pNoMsg : SinglePayload := ⟨false, some "not-a-uuid", none⟩

/-- Concrete buffer environment: Redis available, `XAdd` succeeds. -/
def envOkBuf : BufEnv := ⟨true, true, true, .ok, true⟩

end WatchTower

namespace WatchTower

/-- C1: whenever `BufferLog` returns nil (which `Ingest` propagates as success),
the event was durably appended: either the `XAdd` to the `log_events` stream
succeeded or the WAL `Write` returned success; no other path returns nil.
Moreover `Ingest` reports success exactly when `BufferLog` does. -/
theorem c1_bufferLog_accept_durable (env : BufEnv) (fresh : String) (now : Nat)
    (e : LogEvent) (h : (bufferLog env).1 = .ok) :
    ((bufferLog env).2.xadded = true ∨ (bufferLog env).2.walWritten = true) ∧
    (ingest env fresh now e).1 = .ok := by
  refine ⟨?_, ?_⟩
  · unfold bufferLog at h ⊢
    rcases env with ⟨avail, hasWAL, mOk, xadd, wOk⟩
    cases avail <;> cases hasWAL <;> cases mOk <;> cases xadd <;> cases wOk <;>
      simp_all [bufferLogToRedis]
  · simpa [ingest] using h

/-- Helper: counting attempts steps over an attempt. -/
theorem countAttempts_attempt (i : Nat) (tr : List RetryStep) :
    countAttempts (.attempt i :: tr) = countAttempts tr + 1 := by
  simp [countAttempts, isAttempt, List.filter_cons]

/-- Helper: counting attempts ignores a sleep. -/
theorem countAttempts_sleep (d : Nat) (tr : List RetryStep) :
    countAttempts (.sleep d :: tr) = countAttempts tr := by
  simp [countAttempts, isAttempt, List.filter_cons]

/-- Helper: sleep durations ignore an attempt. -/
theorem sleepsOf_attempt (i : Nat) (tr : List RetryStep) :
    sleepsOf (.attempt i :: tr) = sleepsOf tr := by
  simp [sleepsOf, List.filterMap_cons]

/-- Helper: sleep durations record a sleep. -/
theorem sleepsOf_sleep (d : Nat) (tr : List RetryStep) :
    sleepsOf (.sleep d :: tr) = d :: sleepsOf tr := by
  simp [sleepsOf, List.filterMap_cons]

/-- Helper: a doubling-delay list extended on the left by its base delay. -/
theorem doubling_cons (b i m : Nat) :
    b * 2 ^ i :: (List.range m).map (fun j => b * 2 ^ (i + 1 + j))
      = (List.range (m + 1)).map (fun j => b * 2 ^ (i + j)) := by
  rw [List.range_succ_eq_map, List.map_cons, List.map_map]
  have hfun : ((fun j => b * 2 ^ (i + j)) ∘ Nat.succ) = fun j => b * 2 ^ (i + 1 + j) := by
    funext a
    simp only [Function.comp_apply]
    have h : i + Nat.succ a = i + 1 + a := by omega
    rw [h]
  rw [hfun]
  norm_num

/-- Helper: on an always-failing sink with no cancellation, the retry loop makes
one attempt per remaining iteration and sleeps between consecutive attempts with
doubling delays. -/
theorem retryAux_allFail (env : RetryEnv) (rc b : Nat)
    (hfail : ∀ j, env.sinkOk j = false)
    (hctx : ∀ j, env.ctxDoneAt j = false)
    (hcan : ∀ j, env.cancelDuringSleep j = false) :
    ∀ fuel i last, i + fuel = rc → 1 ≤ fuel →
      (retryAux env rc b fuel i last).2 = .sinkErr ∧
      countAttempts (retryAux env rc b fuel i last).1 = fuel ∧
      sleepsOf (retryAux env rc b fuel i last).1
        = (List.range (fuel - 1)).map (fun k => b * 2 ^ (i + k)) := by
  intro fuel
  induction fuel with
  | zero => intro i last h h1; omega
  | succ f ih =>
    intro i last hsum _
    by_cases hf : f = 0
    · subst hf
      have hi : i = rc - 1 := by omega
      have heq : retryAux env rc b 1 i last = ([.attempt i], .sinkErr) := by
        simp [retryAux, hfail, hctx, hcan, hi]
      rw [heq]
      simp [countAttempts, sleepsOf, isAttempt]
    · have hi : ¬ i = rc - 1 := by omega
      have heq : retryAux env rc b (f + 1) i last
          = (.attempt i :: .sleep (b * 2 ^ i) :: (retryAux env rc b f (i + 1) .sinkErr).1,
             (retryAux env rc b f (i + 1) .sinkErr).2) := by
        simp [retryAux, hfail, hctx, hcan, hi]
      obtain ⟨h2, h3, h4⟩ := ih (i + 1) .sinkErr (by omega) (by omega)
      rw [heq]
      refine ⟨h2, ?_, ?_⟩
      · rw [countAttempts_attempt, countAttempts_sleep, h3]
      · rw [sleepsOf_attempt, sleepsOf_sleep, h4]
        obtain ⟨f', rfl⟩ : ∃ f', f = f' + 1 := ⟨f - 1, by omega⟩
        rw [show f' + 1 - 1 = f' from by omega, doubling_cons,
          show f' + 1 + 1 - 1 = f' + 1 from by omega]

/-- Helper: on an always-failing sink, cancellation during the sleep that follows
attempt `k` makes the loop return the context error after exactly `k + 1` attempts,
the first `k` sleeps having completed. -/
theorem retryAux_cancel (env : RetryEnv) (rc b k : Nat)
    (hfail : ∀ j, env.sinkOk j = false)
    (hctx : ∀ j, j ≤ k → env.ctxDoneAt j = false)
    (hcan : ∀ j, j < k → env.cancelDuringSleep j = false)
    (hk : env.cancelDuringSleep k = true) (hkrc : k < rc - 1) :
    ∀ fuel i last, i + fuel = rc → i ≤ k →
      (retryAux env rc b fuel i last).2 = .ctxErr ∧
      countAttempts (retryAux env rc b fuel i last).1 = k - i + 1 ∧
      sleepsOf (retryAux env rc b fuel i last).1
        = (List.range (k - i)).map (fun j => b * 2 ^ (i + j)) := by
  intro fuel
  induction fuel with
  | zero => intro i last hsum hik; omega
  | succ f ih =>
    intro i last hsum hik
    by_cases hieq : i = k
    · subst hieq
      have hi : ¬ i = rc - 1 := by omega
      have heq : retryAux env rc b (f + 1) i last = ([.attempt i], .ctxErr) := by
        simp [retryAux, hfail, hctx i le_rfl, hi, hk]
      rw [heq]
      simp [countAttempts, sleepsOf, isAttempt]
    · have hlt : i < k := by omega
      have hi : ¬ i = rc - 1 := by omega
      have heq : retryAux env rc b (f + 1) i last
          = (.attempt i :: .sleep (b * 2 ^ i) :: (retryAux env rc b f (i + 1) .sinkErr).1,
             (retryAux env rc b f (i + 1) .sinkErr).2) := by
        simp [retryAux, hfail, hctx i (by omega), hcan i hlt, hi]
      obtain ⟨h2, h3, h4⟩ := ih (i + 1) .sinkErr (by omega) (by omega)
      rw [heq]
      refine ⟨h2, ?_, ?_⟩
      · rw [countAttempts_attempt, countAttempts_sleep, h3]
        omega
      · rw [sleepsOf_attempt, sleepsOf_sleep, h4]
        obtain ⟨m, hm⟩ : ∃ m, k - i = m + 1 := ⟨k - i - 1, by omega⟩
        rw [show k - (i + 1) = m from by omega, hm, doubling_cons]

/-- C2: for `retryCount ≥ 1` and a sink failing on every attempt, `writeWithRetry`
makes exactly `retryCount` attempts and `retryCount - 1` completed sleeps, the
`k`-th sleep (1-indexed) lasting `backoff * 2 ^ (k - 1)`, and returns the sink
error; if instead the context is cancelled during the sleep following attempt `k`,
it returns the context error promptly after `k + 1` attempts with only the first
`k` sleeps completed. -/
theorem c2_writeWithRetry_backoff (env : RetryEnv) (rc b k : Nat)
    (hrc : 1 ≤ rc) (hfail : ∀ j, env.sinkOk j = false) :
    ((∀ j, env.ctxDoneAt j = false) → (∀ j, env.cancelDuringSleep j = false) →
      (writeWithRetry env rc b).2 = .sinkErr ∧
      countAttempts (writeWithRetry env rc b).1 = rc ∧
      sleepsOf (writeWithRetry env rc b).1
        = (List.range (rc - 1)).map (fun j => b * 2 ^ j)) ∧
    ((∀ j, j ≤ k → env.ctxDoneAt j = false) →
      (∀ j, j < k → env.cancelDuringSleep j = false) →
      env.cancelDuringSleep k = true → k < rc - 1 →
      (writeWithRetry env rc b).2 = .ctxErr ∧
      countAttempts (writeWithRetry env rc b).1 = k + 1 ∧
      sleepsOf (writeWithRetry env rc b).1
        = (List.range k).map (fun j => b * 2 ^ j)) := by
  constructor
  · intro hctx hcan
    have h := retryAux_allFail env rc b hfail hctx hcan rc 0 .nilErr (by omega) hrc
    simpa [writeWithRetry] using h
  · intro hctx hcan hk hkrc
    have h := retryAux_cancel env rc b k hfail hctx hcan hk hkrc rc 0 .nilErr
      (by omega) (by omega)
    simpa [writeWithRetry] using h

/-- Witness for C2: persistent failure with `retryCount = 3`, `backoff = 5` gives
3 attempts and sleeps 5, 10; cancellation during the second sleep with
`retryCount = 4`, `backoff = 1` gives the context error after 2 attempts. -/
theorem c2_witness :
    1 ≤ 3 ∧
    (writeWithRetry retryEnvA 3 5).2 = RetryRes.sinkErr ∧
    countAttempts (writeWithRetry retryEnvA 3 5).1 = 3 ∧
    sleepsOf (writeWithRetry retryEnvA 3 5).1 = [5, 10] ∧
    (writeWithRetry retryEnvB 4 1).2 = RetryRes.ctxErr ∧
    countAttempts (writeWithRetry retryEnvB 4 1).1 = 2 ∧
    sleepsOf (writeWithRetry retryEnvB 4 1).1 = [1] := by
  have ha := (c2_writeWithRetry_backoff retryEnvA 3 5 0 (by norm_num)
    (fun _ => rfl)).1 (fun _ => rfl) (fun _ => rfl)
  have hb := (c2_writeWithRetry_backoff retryEnvB 4 1 1 (by norm_num)
    (fun _ => rfl)).2 (fun _ _ => rfl)
    (fun j hj => by
      have hj0 : j = 0 := by omega
      subst hj0; rfl)
    rfl (by norm_num)
  refine ⟨by norm_num, ha.1, ha.2.1, ?_, hb.1, hb.2.1, ?_⟩
  · rw [ha.2.2]; decide
  · rw [hb.2.2]; decide

/-- C3: for a non-empty batch, `ProcessBatch` invokes `AcknowledgeLogs` exactly
when the retried sink write succeeded or (it failed and `MoveToDLQ` succeeded);
when `MoveToDLQ` fails it returns the DLQ error without acknowledging. -/
theorem c3_processBatch_ack (env : ProcEnv) (rc b : Nat) (events : List LogEvent)
    (hread : env.read = .batch events) (hne : 0 < events.length) :
    (ProcStep.ackStep ∈ (processBatch env rc b).1 ↔
      ((writeWithRetry env.retry rc b).2 = .nilErr ∨
        ((writeWithRetry env.retry rc b).2 ≠ .nilErr ∧ env.dlqOk = true))) ∧
    ((writeWithRetry env.retry rc b).2 ≠ .nilErr → env.dlqOk = false →
      (processBatch env rc b).2 = .dlqFail ∧
      ProcStep.ackStep ∉ (processBatch env rc b).1) := by
  have hlen : ¬ events.length = 0 := by omega
  rcases env with ⟨read, retry, dlqOk, ackOk⟩
  cases hread
  cases hw : (writeWithRetry retry rc b).2 <;> cases dlqOk <;> cases ackOk <;>
    simp_all [processBatch]

/-- Witness for C3 at concrete environments: with a failing DLQ the batch is left
pending (no ack, DLQ error returned); with a working DLQ the batch is acked. -/
theorem c3_witness :
    procEnvNoDLQ.read = ReadRes.batch [LogEvent.zero] ∧
    0 < [LogEvent.zero].length ∧
    (processBatch procEnvNoDLQ 2 1).2 = ProcRes.dlqFail ∧
    ProcStep.ackStep ∉ (processBatch procEnvNoDLQ 2 1).1 ∧
    ProcStep.ackStep ∈ (processBatch procEnvDLQ 2 1).1 := by
  have h1 := c3_processBatch_ack procEnvNoDLQ 2 1 [LogEvent.zero] rfl (by norm_num)
  have h2 := c3_processBatch_ack procEnvDLQ 2 1 [LogEvent.zero] rfl (by norm_num)
  have h1' := h1.2 (by decide) rfl
  refine ⟨rfl, by norm_num, h1'.1, h1'.2, ?_⟩
  exact h2.1.mpr (Or.inr ⟨by decide, rfl⟩)

/-- Witness for C1 at a concrete environment where the buffer is available and
the `XAdd` succeeds. -/
theorem c1_witness :
    (bufferLog ⟨true, true, true, .ok, true⟩).1 = GoRes.ok ∧
    ((bufferLog ⟨true, true, true, .ok, true⟩).2.xadded = true ∨
      (bufferLog ⟨true, true, true, .ok, true⟩).2.walWritten = true) ∧
    (ingest ⟨true, true, true, .ok, true⟩ "f" 0 LogEvent.zero).1 = GoRes.ok := by
  refine ⟨by decide, ?_⟩
  exact c1_bufferLog_accept_durable ⟨true, true, true, .ok, true⟩ "f" 0 LogEvent.zero (by decide)

/-- Helper: disk size adds over concatenation of directories. -/
theorem diskSize_append (l1 l2 : List Segment) :
    diskSize (l1 ++ l2) = diskSize l1 + diskSize l2 := by
  simp [diskSize]

/-- Helper: rotation creates an empty segment and leaves the total size unchanged. -/
theorem diskSize_rotate (st : WALState) :
    diskSize (walRotate st).segments = diskSize st.segments := by
  simp [walRotate, diskSize_append, diskSize, segSize]

/-- Helper: the open-if-closed step leaves the total size unchanged. -/
theorem diskSize_rotateIfNil (st : WALState) :
    diskSize (walRotateIfNil st).segments = diskSize st.segments := by
  unfold walRotateIfNil
  split
  · exact diskSize_rotate st
  · rfl

/-- Helper: the closing rotation check leaves the total size unchanged. -/
theorem diskSize_maybeRotate (cfg : WALConfig) (st : WALState) :
    diskSize (walMaybeRotate cfg st).segments = diskSize st.segments := by
  unfold walMaybeRotate
  split
  · exact diskSize_rotate st
  · rfl

/-- Helper: appending one line grows the directory by at most that line. -/
theorem diskSize_appendLine (n : Nat) (l : WALLine) (segs : List Segment) :
    diskSize (appendLine n l segs) ≤ diskSize segs + lineSize l := by
  induction segs with
  | nil => simp [appendLine, diskSize]
  | cons s ss ih =>
    unfold appendLine
    split
    · simp only [diskSize, List.map_cons, List.sum_cons, segSize, List.map_append,
        List.sum_append]
      simp [diskSize, segSize] at *
      omega
    · simp only [diskSize, List.map_cons, List.sum_cons] at *
      omega

/-- C5: `Write` returns success only with the total on-disk size of all segment
files within `maxTotalSize`; the budget check uses the freshly scanned total
plus the serialized event, and a budget failure appends nothing. -/
theorem c5_walWrite_disk_budget (cfg : WALConfig) (scanOk : Bool) (st : WALState)
    (e : LogEvent) :
    ((walWrite cfg scanOk st e).2 = .ok →
      diskSize (walWrite cfg scanOk st e).1.segments ≤ cfg.maxTotalSize) ∧
    ((walWrite cfg scanOk st e).2 = .fullErr →
      diskSize (walWrite cfg scanOk st e).1.segments = diskSize st.segments) ∧
    ((walWrite cfg scanOk st e).2 = .fullErr ↔
      cfg.marshalOk e = true ∧ scanOk = true ∧
      cfg.maxTotalSize < diskSize (walRotateIfNil st).segments + (cfg.encSize e + 1)) := by
  unfold walWrite
  split_ifs with h1 h2 h3
  · refine ⟨fun h => by simp at h, fun h => by simp at h, ?_⟩
    simp only [Bool.not_eq_true] at *
    constructor
    · intro h; simp at h
    · rintro ⟨ha, _, _⟩; rw [h1] at ha; cases ha
  · refine ⟨fun h => by simp at h, fun h => by simp at h, ?_⟩
    constructor
    · intro h; simp at h
    · rintro ⟨_, hb, _⟩; rw [h2] at hb; cases hb
  · refine ⟨fun h => by simp at h, fun _ => diskSize_rotateIfNil st, ?_⟩
    constructor
    · intro _
      refine ⟨?_, ?_, h3⟩
      · cases hm : cfg.marshalOk e
        · exact absurd hm h1
        · rfl
      · cases hs : scanOk
        · exact absurd hs h2
        · rfl
    · intro _; rfl
  · refine ⟨fun _ => ?_, fun h => by simp at h, ?_⟩
    · rw [diskSize_maybeRotate]
      dsimp only
      have hb := diskSize_appendLine ((walRotateIfNil st).current.getD 0)
        (.event e (cfg.encSize e)) (walRotateIfNil st).segments
      simp only [lineSize] at hb
      omega
    · constructor
      · intro h; simp at h
      · rintro ⟨_, _, hc⟩; exact absurd hc h3

/-- Witness for C5: a successful write in a state with one open segment keeps
the directory within the 50-byte budget. -/
theorem c5_witness :
    (walWrite walCfgRoom true walStRoom LogEvent.zero).2 = WriteRes.ok ∧
    diskSize (walWrite walCfgRoom true walStRoom LogEvent.zero).1.segments
      ≤ walCfgRoom.maxTotalSize := by
  refine ⟨by decide, ?_⟩
  exact (c5_walWrite_disk_budget walCfgRoom true walStRoom LogEvent.zero).1 (by decide)

/-- Helper: events of a cons directory. -/
theorem eventsOf_cons (s : Segment) (ss : List Segment) :
    eventsOf (s :: ss) = segEvents s.lines ++ eventsOf ss := by
  simp [eventsOf]

/-- Helper: a fully passing prefix is handed to the handler unchanged. -/
theorem takeThroughFail_all (h : LogEvent → Bool) (xs : List LogEvent)
    (hall : xs.all h = true) : takeThroughFail h xs = xs := by
  induction xs with
  | nil => rfl
  | cons e es ih =>
    simp only [List.all_cons, Bool.and_eq_true] at hall
    simp [takeThroughFail, hall.1, ih hall.2]

/-- Helper: the handler trace of a concatenation stops inside the first part
exactly when some event there fails. -/
theorem takeThroughFail_append (h : LogEvent → Bool) (xs ys : List LogEvent) :
    takeThroughFail h (xs ++ ys)
      = if xs.all h then xs ++ takeThroughFail h ys else takeThroughFail h xs := by
  induction xs with
  | nil => simp
  | cons e es ih =>
    cases he : h e <;> cases hall : es.all h <;>
      simp [takeThroughFail, he, ih, hall, List.all_cons]

/-- Helper: the line scan of one segment delivers exactly the parsed events up
to the first handler failure, and succeeds exactly when no parsed event fails. -/
theorem replayLines_eq (h : LogEvent → Bool) (ls : List WALLine) :
    replayLines h ls = (takeThroughFail h (segEvents ls), (segEvents ls).all h) := by
  induction ls with
  | nil => rfl
  | cons l rest ih =>
    cases l with
    | junk sz => simpa [replayLines, segEvents] using ih
    | event e sz =>
      cases he : h e <;> simp [replayLines, segEvents, takeThroughFail, he, ih,
        List.all_cons]

/-- Helper: the segment loop delivers exactly the parsed events of the whole
(sorted) directory up to the first handler failure. -/
theorem replaySegs_eq (h : LogEvent → Bool) (segs : List Segment) :
    replaySegs h segs = (takeThroughFail h (eventsOf segs), (eventsOf segs).all h) := by
  induction segs with
  | nil => rfl
  | cons s ss ih =>
    rw [eventsOf_cons, takeThroughFail_append, List.all_append]
    cases hall : (segEvents s.lines).all h
    · simp [replaySegs, replayLines_eq, hall]
    · simp [replaySegs, replayLines_eq, hall, ih, takeThroughFail_all h _ hall]

/-- C7: `Replay` hands events to the handler in sorted-filename-then-line
order, skipping lines that fail JSON parsing; on a handler error it stops at
the failing event and propagates the error; it never deletes a segment file. -/
theorem c7_replay_order_skip_stop (h : LogEvent → Bool) (st : WALState) :
    (walReplay h st).1.segments = st.segments ∧
    (walReplay h st).2.1 = takeThroughFail h (replayEvents st) ∧
    ((walReplay h st).2.2 = true ↔ ∀ e ∈ replayEvents st, h e = true) := by
  unfold walReplay
  refine ⟨rfl, ?_, ?_⟩
  · rw [replaySegs_eq]
    rfl
  · rw [replaySegs_eq]
    exact List.all_eq_true

/-- C6 counterexample: on a WAL with one logged event and a handler that always
succeeds, `ReplayWAL` succeeds yet the directory is not empty: `Truncate`
opened a fresh active segment file. -/
theorem c6_counterexample :
    (replayWAL hOk walSt0).2 = true ∧ (replayWAL hOk walSt0).1.segments ≠ [] := by
  decide

/-- C6 amended: after a successful `ReplayWAL` every pre-existing segment file
is gone and the directory holds exactly one freshly created empty active
segment; no replayable events remain. -/
theorem c6_replayWAL_fresh_segment (h : LogEvent → Bool) (st : WALState)
    (hok : (replayWAL h st).2 = true) :
    (replayWAL h st).1.segments = [⟨st.clock, []⟩] ∧
    replayEvents (replayWAL h st).1 = [] := by
  unfold replayWAL at hok ⊢
  split_ifs at hok ⊢ with hc
  constructor
  · simp [walTruncate, walRotate, walReplay]
  · simp [replayEvents, walTruncate, walRotate, walReplay, sortSegs, insertSeg,
      eventsOf, segEvents]

/-- Helper: three-part append commutation for permutations. -/
theorem perm_append_swap {α : Type} (a b c : List α) :
    List.Perm (a ++ (b ++ c)) (b ++ (a ++ c)) := by
  rw [← List.append_assoc, ← List.append_assoc]
  exact List.perm_append_comm.append_right c

/-- Helper: inserting a segment permutes the recoverable events of consing it. -/
theorem eventsOf_insertSeg (s : Segment) (l : List Segment) :
    List.Perm (eventsOf (insertSeg s l)) (eventsOf (s :: l)) := by
  induction l with
  | nil => exact List.Perm.refl _
  | cons t ts ih =>
    unfold insertSeg
    split
    · exact List.Perm.refl _
    · simp only [eventsOf_cons]
      refine List.Perm.trans (ih.append_left (segEvents t.lines)) ?_
      rw [eventsOf_cons]
      exact perm_append_swap (segEvents t.lines) (segEvents s.lines) (eventsOf ts)

/-- Helper: sorting the directory permutes its recoverable events. -/
theorem eventsOf_sortSegs (l : List Segment) :
    List.Perm (eventsOf (sortSegs l)) (eventsOf l) := by
  induction l with
  | nil => exact List.Perm.refl _
  | cons s ss ih =>
    refine List.Perm.trans (eventsOf_insertSeg s (sortSegs ss)) ?_
    rw [eventsOf_cons, eventsOf_cons]
    exact ih.append_left _

/-- Helper: a fresh empty segment file adds no recoverable events. -/
theorem eventsOf_append_empty (l : List Segment) (c : Nat) :
    eventsOf (l ++ [⟨c, []⟩]) = eventsOf l := by
  simp [eventsOf, segEvents]

/-- Helper: rotation does not change the multiset of replayable events. -/
theorem replayEvents_rotate (st : WALState) :
    List.Perm (replayEvents (walRotate st)) (replayEvents st) := by
  show List.Perm (eventsOf (sortSegs (st.segments ++ [⟨st.clock, []⟩])))
    (eventsOf (sortSegs st.segments))
  refine List.Perm.trans (eventsOf_sortSegs (st.segments ++ [⟨st.clock, []⟩])) ?_
  rw [eventsOf_append_empty]
  exact (eventsOf_sortSegs st.segments).symm

/-- Helper: the open-if-closed step does not change the replayable events. -/
theorem replayEvents_rotateIfNil (st : WALState) :
    List.Perm (replayEvents (walRotateIfNil st)) (replayEvents st) := by
  unfold walRotateIfNil
  split
  · exact replayEvents_rotate st
  · exact List.Perm.refl _

/-- Helper: with an open active segment the open-if-closed step is the identity. -/
theorem rotateIfNil_isSome (st : WALState) (h : st.current.isSome = true) :
    walRotateIfNil st = st := by
  unfold walRotateIfNil
  split
  · rename_i hn
    rw [Option.isNone_iff_eq_none] at hn
    rw [hn] at h
    cases h
  · rfl

/-- C10 counterexample: in a state where `Replay` left the active segment
closed and a stale size counter, a budget-exceeded `Write` reports an error
but resets the size counter (it first opened a fresh active segment), so the
counter is not unchanged. -/
theorem c10_counterexample :
    (walWrite walCfg0 true walStNil LogEvent.zero).2 ≠ WriteRes.ok ∧
    (walWrite walCfg0 true walStNil LogEvent.zero).1.currentSize
      ≠ walStNil.currentSize := by
  decide

/-- C10 amended: an erroring `Write` appends no event bytes and keeps the
replayable multiset; a marshal failure leaves the state entirely unchanged; a
scan or budget failure leaves the state unchanged whenever an active segment
was open, and otherwise only opens a fresh empty active segment (resetting the
size counter to 0 for it). -/
theorem c10_walWrite_error_atomic (cfg : WALConfig) (scanOk : Bool)
    (st : WALState) (e : LogEvent) :
    ((walWrite cfg scanOk st e).2 = .marshalErr → (walWrite cfg scanOk st e).1 = st) ∧
    (((walWrite cfg scanOk st e).2 = .scanErr ∨ (walWrite cfg scanOk st e).2 = .fullErr) →
      (walWrite cfg scanOk st e).1 = walRotateIfNil st ∧
      diskSize (walWrite cfg scanOk st e).1.segments = diskSize st.segments ∧
      List.Perm (replayEvents (walWrite cfg scanOk st e).1) (replayEvents st) ∧
      (st.current.isSome = true → (walWrite cfg scanOk st e).1 = st)) := by
  unfold walWrite
  split_ifs with h1 h2 h3
  · exact ⟨fun _ => rfl, fun hor => by rcases hor with h | h <;> simp at h⟩
  · refine ⟨fun h => by simp at h, fun _ => ?_⟩
    exact ⟨rfl, diskSize_rotateIfNil st, replayEvents_rotateIfNil st,
      fun hs => rotateIfNil_isSome st hs⟩
  · refine ⟨fun h => by simp at h, fun _ => ?_⟩
    exact ⟨rfl, diskSize_rotateIfNil st, replayEvents_rotateIfNil st,
      fun hs => rotateIfNil_isSome st hs⟩
  · exact ⟨fun h => by simp at h, fun hor => by rcases hor with h | h <;> simp at h⟩

/-- Witness for C10 amended: a marshal failure leaves the concrete state
unchanged, and a concrete budget failure keeps the directory contents. -/
theorem c10_witness :
    (walWrite walCfgBadMarshal true walStRoom LogEvent.zero).2 = WriteRes.marshalErr ∧
    (walWrite walCfgBadMarshal true walStRoom LogEvent.zero).1 = walStRoom ∧
    (walWrite walCfg0 true walStNil LogEvent.zero).2 = WriteRes.fullErr ∧
    (walWrite walCfg0 true walStNil LogEvent.zero).1 = walRotateIfNil walStNil ∧
    diskSize (walWrite walCfg0 true walStNil LogEvent.zero).1.segments
      = diskSize walStNil.segments := by
  have h1 := (c10_walWrite_error_atomic walCfgBadMarshal true walStRoom
    LogEvent.zero).1 (by decide)
  have h2 := (c10_walWrite_error_atomic walCfg0 true walStNil
    LogEvent.zero).2 (Or.inr (by decide))
  exact ⟨by decide, h1, by decide, h2.1, h2.2.1⟩

/-- Witness for C6 amended at the concrete one-event WAL. -/
theorem c6_witness :
    (replayWAL hOk walSt0).2 = true ∧
    (replayWAL hOk walSt0).1.segments = [⟨walSt0.clock, []⟩] ∧
    replayEvents (replayWAL hOk walSt0).1 = [] := by
  refine ⟨by decide, ?_⟩
  exact c6_replayWAL_fresh_segment hOk walSt0 (by decide)

/-- C4: in the health-check loop the availability flag becomes AVAILABLE only
in an iteration whose `Ping` succeeded and whose `ReplayWAL` succeeded; when
the replay fails the flag is UNAVAILABLE after the iteration and the value
`true` is never stored during it (so the flag is not observable as AVAILABLE
from the failed replay until the next probe cycle). -/
theorem c4_health_flag_transitions (t : HealthTick) (was : Bool) :
    ((healthStep t was).1 = true → was = true ∨ (t.pingOk = true ∧ t.replayOk = true)) ∧
    (was = false → t.pingOk = true → t.replayOk = false →
      (healthStep t was).1 = false ∧ (healthStep t was).2 = []) ∧
    (true ∈ (healthStep t was).2 → was = false ∧ t.pingOk = true ∧ t.replayOk = true) := by
  rcases t with ⟨p, r⟩
  cases p <;> cases r <;> cases was <;> decide

/-- Witness for C4: a concrete recovery probe with failing replay leaves the
flag UNAVAILABLE and stores nothing; with a successful replay the flag becomes
AVAILABLE. -/
theorem c4_witness :
    ((healthStep ⟨true, false⟩ false).1 = false ∧ (healthStep ⟨true, false⟩ false).2 = []) ∧
    (healthStep ⟨true, true⟩ false).1 = true := by
  refine ⟨?_, by decide⟩
  exact (c4_health_flag_transitions ⟨true, false⟩ false).2.1 rfl rfl rfl

/-- Helper: whenever `BufferLog` returns nil, the `XAdd` or the WAL write
succeeded. -/
theorem bufferLog_ok_durable (env : BufEnv) (h : (bufferLog env).1 = .ok) :
    (bufferLog env).2.xadded = true ∨ (bufferLog env).2.walWritten = true := by
  unfold bufferLog at h ⊢
  rcases env with ⟨avail, hasWAL, mOk, xadd, wOk⟩
  cases avail <;> cases hasWAL <;> cases mOk <;> cases xadd <;> cases wOk <;>
    simp_all [bufferLogToRedis]

/-- C9 counterexample: a well-formed JSON payload with no `message` field and
a non-empty, malformed `event_id` is accepted (202) and buffered as-is (with
its `XAdd` succeeding), contradicting the claimed rejection. -/
theorem c9_counterexample :
    (handleSingleJSON envOkBuf "minted-id" 3 pNoMsg).1 = HTTPStatus.accepted ∧
    (handleSingleJSON envOkBuf "minted-id" 3 pNoMsg).2
      = some { LogEvent.zero with id := "not-a-uuid", receivedAt := 3 } ∧
    (bufferLog envOkBuf).2.xadded = true := by
  decide

/-- C9 amended: the single-event JSON ingest path rejects exactly the payloads
that fail JSON unmarshalling or whose buffering fails; a parsed payload is
accepted regardless of a missing `message` or a malformed `id` (an empty id is
replaced by a freshly minted one, a non-empty id is kept verbatim), and on
acceptance the enriched event was durably buffered. -/
theorem c9_handleSingle_rejects_only_parse (env : BufEnv) (fresh : String)
    (now : Nat) (p : SinglePayload) :
    ((handleSingleJSON env fresh now p).1 = .accepted ↔
      (p.malformedJSON = false ∧ (bufferLog env).1 = .ok)) ∧
    ((handleSingleJSON env fresh now p).1 = .accepted →
      (handleSingleJSON env fresh now p).2
        = some { LogEvent.zero with
            id := if p.idField.getD "" = "" then fresh else p.idField.getD "",
            receivedAt := now,
            message := p.messageField.getD "" } ∧
      ((bufferLog env).2.xadded = true ∨ (bufferLog env).2.walWritten = true)) := by
  cases hm : p.malformedJSON
  · cases hb : (bufferLog env).1
    · constructor
      · simp [handleSingleJSON, decodeSingle, ingest, hm, hb]
      · intro _
        refine ⟨?_, bufferLog_ok_durable env hb⟩
        simp [handleSingleJSON, decodeSingle, ingest, hm, hb]
    · constructor
      · simp [handleSingleJSON, decodeSingle, ingest, hm, hb]
      · intro hacc
        exfalso
        simp [handleSingleJSON, decodeSingle, ingest, hm, hb] at hacc
  · constructor
    · simp [handleSingleJSON, decodeSingle, hm]
    · intro hacc
      exfalso
      simp [handleSingleJSON, decodeSingle, hm] at hacc

/-- Witness for C9 amended: the message-less, malformed-id payload is accepted
with the buffer available, and the buffered event keeps the malformed id. -/
theorem c9_witness :
    (handleSingleJSON envOkBuf "minted-id" 3 pNoMsg).1 = HTTPStatus.accepted ∧
    (handleSingleJSON envOkBuf "minted-id" 3 pNoMsg).2
      = some { LogEvent.zero with id := "not-a-uuid", receivedAt := 3 } := by
  have h := (c9_handleSingle_rejects_only_parse envOkBuf "minted-id" 3 pNoMsg).1.mpr
    ⟨rfl, by decide⟩
  refine ⟨h, ?_⟩
  have h2 := (c9_handleSingle_rejects_only_parse envOkBuf "minted-id" 3 pNoMsg).2 h
  rw [h2.1]
  decide

/-- Helper: looking up the upserted key yields the new row. -/
theorem lookup_upsertRow_self (t : SinkTable) (k : String) (r : SinkRow) :
    (upsertRow t k r).lookup k = some r := by
  induction t with
  | nil => simp [upsertRow, List.lookup]
  | cons p rest ih =>
    rcases p with ⟨i, x⟩
    by_cases h : i = k
    · subst h
      simp [upsertRow, List.lookup]
    · have hbe : (k == i) = false := by
        simp only [beq_eq_false_iff_ne]
        exact fun hc => h hc.symm
      simp [upsertRow, h, List.lookup, hbe, ih]

/-- Helper: looking up any other key is unchanged by an upsert. -/
theorem lookup_upsertRow_ne (t : SinkTable) (k q : String) (r : SinkRow)
    (h : q ≠ k) :
    (upsertRow t k r).lookup q = t.lookup q := by
  induction t with
  | nil =>
    have hbe : (q == k) = false := by
      simp only [beq_eq_false_iff_ne]
      exact h
    simp [upsertRow, List.lookup, hbe]
  | cons p rest ih =>
    rcases p with ⟨i, x⟩
    by_cases hik : i = k
    · subst hik
      have hbe : (q == i) = false := by
        simp only [beq_eq_false_iff_ne]
        exact h
      simp [upsertRow, List.lookup, hbe]
    · by_cases hqi : q = i
      · subst hqi
        simp [upsertRow, hik, List.lookup]
      · have hbe : (q == i) = false := by
          simp only [beq_eq_false_iff_ne]
          exact hqi
        simp [upsertRow, hik, List.lookup, hbe, ih]

/-- Helper: the keys of an upserted table gain the key only if absent. -/
theorem keys_upsertRow (t : SinkTable) (k : String) (r : SinkRow) :
    (upsertRow t k r).map Prod.fst
      = if k ∈ t.map Prod.fst then t.map Prod.fst else t.map Prod.fst ++ [k] := by
  induction t with
  | nil => simp [upsertRow]
  | cons p rest ih =>
    rcases p with ⟨i, x⟩
    by_cases hik : i = k
    · subst hik
      simp [upsertRow]
    · by_cases hm : k ∈ rest.map Prod.fst <;>
        simp [upsertRow, hik, ih, hm, Ne.symm hik]

/-- Helper: an upsert keeps the keys duplicate-free. -/
theorem nodupKeys_upsertRow (t : SinkTable) (k : String) (r : SinkRow)
    (h : (t.map Prod.fst).Nodup) :
    ((upsertRow t k r).map Prod.fst).Nodup := by
  rw [keys_upsertRow]
  split
  · exact h
  · rename_i hni
    simp [List.nodup_append, h, hni]

/-- Helper: a whole staged batch keeps the keys duplicate-free. -/
theorem nodupKeys_foldl_upsert (B : List LogEvent) :
    ∀ t : SinkTable, (t.map Prod.fst).Nodup →
      ((B.foldl (fun acc e => upsertRow acc e.id (toRow e)) t).map Prod.fst).Nodup := by
  induction B with
  | nil => intro t ht; exact ht
  | cons e es ih =>
    intro t ht
    exact ih _ (nodupKeys_upsertRow t e.id (toRow e) ht)

/-- Helper: folding the last-writer accumulator from an arbitrary start. -/
theorem lastRowFor_acc (id : String) (es : List LogEvent) :
    ∀ acc : Option SinkRow,
      es.foldl (fun a e => if e.id = id then some (toRow e) else a) acc
        = (lastRowFor id es).or acc := by
  induction es with
  | nil => intro acc; simp [lastRowFor]
  | cons e es ih =>
    intro acc
    simp only [List.foldl_cons, lastRowFor] at *
    rw [ih, ih (if e.id = id then some (toRow e) else none)]
    by_cases he : e.id = id <;> cases hv : lastRowFor id es <;>
      simp [lastRowFor, Option.or, he] <;> simp [lastRowFor] at hv <;> simp [hv]

/-- Helper: last-writer-wins over a concatenation. -/
theorem lastRowFor_append (id : String) (xs ys : List LogEvent) :
    lastRowFor id (xs ++ ys) = (lastRowFor id ys).or (lastRowFor id xs) := by
  unfold lastRowFor
  rw [List.foldl_append]
  exact lastRowFor_acc id ys _

/-- Helper: a staged batch merged by upserts realizes last-writer-wins against
the incoming table. -/
theorem lookup_foldl_upsert (B : List LogEvent) :
    ∀ (t : SinkTable) (id : String),
      ((B.foldl (fun acc e => upsertRow acc e.id (toRow e)) t).lookup id)
        = (lastRowFor id B).or (t.lookup id) := by
  induction B with
  | nil => intro t id; simp [lastRowFor]
  | cons e es ih =>
    intro t id
    simp only [List.foldl_cons]
    rw [ih]
    have hstep : lastRowFor id (e :: es)
        = (lastRowFor id es).or (if e.id = id then some (toRow e) else none) := by
      simp only [lastRowFor, List.foldl_cons]
      exact lastRowFor_acc id es _
    rw [hstep]
    by_cases he : e.id = id
    · subst he
      rw [lookup_upsertRow_self]
      cases hv : lastRowFor e.id es <;> simp [Option.or]
    · rw [lookup_upsertRow_ne t e.id id (toRow e) (fun hc => he hc.symm)]
      cases hv : lastRowFor id es <;> simp [Option.or, he]

/-- Helper: `WriteLogBatch` on a duplicate-free batch succeeds and merges the
staged rows by upsert. -/
theorem writeLogBatch_nodup (t : SinkTable) (B : List LogEvent)
    (h : (B.map (fun e => e.id)).Nodup) :
    writeLogBatch t B = (B.foldl (fun acc e => upsertRow acc e.id (toRow e)) t, true) := by
  unfold writeLogBatch
  by_cases hB : B.length = 0
  · have hBnil : B = [] := List.length_eq_zero.mp hB
    subst hBnil
    simp
  · simp [hB, h]

/-- Helper: a sequence of duplicate-free batches keeps keys unique and
realizes last-writer-wins against the starting table. -/
theorem writeSeq_lookup (batches : List (List LogEvent))
    (hnd : ∀ B ∈ batches, (B.map (fun e => e.id)).Nodup) :
    ∀ t : SinkTable, (t.map Prod.fst).Nodup →
      ((writeSeq t batches).map Prod.fst).Nodup ∧
      ∀ id, (writeSeq t batches).lookup id
        = (lastRowFor id batches.flatten).or (t.lookup id) := by
  induction batches with
  | nil =>
    intro t ht
    exact ⟨ht, fun id => by simp [writeSeq, lastRowFor, Option.or]⟩
  | cons B bs ih =>
    intro t ht
    have hB : (B.map (fun e => e.id)).Nodup := hnd B (by simp)
    have hbs : ∀ C ∈ bs, (C.map (fun e => e.id)).Nodup :=
      fun C hc => hnd C (by simp [hc])
    have hseq : writeSeq t (B :: bs) = writeSeq ((writeLogBatch t B).1) bs := by
      simp [writeSeq]
    rw [writeLogBatch_nodup t B hB] at hseq
    have ht1 : (((B.foldl (fun acc e => upsertRow acc e.id (toRow e)) t)).map
        Prod.fst).Nodup := nodupKeys_foldl_upsert B t ht
    obtain ⟨hk, hl⟩ := ih hbs _ ht1
    rw [hseq]
    refine ⟨hk, fun id => ?_⟩
    rw [hl id, lookup_foldl_upsert B t id]
    have hfl : (B :: bs).flatten = B ++ bs.flatten := rfl
    rw [hfl, lastRowFor_append, Option.or_assoc]

/-- C8 counterexample: a single batch containing two events with the same id
fails as a whole (`ON CONFLICT DO UPDATE` cannot affect a row a second time),
so one write of that batch leaves zero rows for the id instead of exactly one. -/
theorem c8_counterexample :
    writeLogBatch [] [eA, eA2] = ([], false) ∧
    ((writeLogBatch [] [eA, eA2]).1.map Prod.fst).count "a" = 0 := by
  decide

/-- C8 amended: provided every single call's batch carries pairwise-distinct
event ids, any sequence of `WriteLogBatch` calls (in particular the same batch
written N times, or later batches reusing an id) leaves exactly one row per
distinct id whose columns are those of the last write for that id; a batch
with an internally duplicated id fails atomically, leaving the table
unchanged. -/
theorem c8_sink_upsert_lastwrite (batches : List (List LogEvent))
    (hnd : ∀ B ∈ batches, (B.map (fun e => e.id)).Nodup) :
    ((writeSeq [] batches).map Prod.fst).Nodup ∧
    (∀ id, (writeSeq [] batches).lookup id = lastRowFor id batches.flatten) ∧
    (∀ (t : SinkTable) (B : List LogEvent), ¬ (B.map (fun e => e.id)).Nodup →
      writeLogBatch t B = (t, false)) := by
  have h := writeSeq_lookup batches hnd [] (by simp)
  refine ⟨h.1, fun id => ?_, fun t B hB => ?_⟩
  · rw [h.2 id]
    cases hv : lastRowFor id batches.flatten <;> simp [Option.or, List.lookup]
  · have hlen : ¬ B.length = 0 := by
      intro h0
      rw [List.length_eq_zero.mp h0] at hB
      exact hB (by simp)
    unfold writeLogBatch
    simp [hlen, hB]

/-- Witness for C8 amended: two successive one-event batches with the same id
leave a single row holding the columns of the second write. -/
theorem c8_witness :
    ((writeSeq [] [[eA], [eA2]]).map Prod.fst).Nodup ∧
    (writeSeq [] [[eA], [eA2]]).lookup "a" = some (toRow eA2) := by
  have h := c8_sink_upsert_lastwrite [[eA], [eA2]] (by decide)
  refine ⟨h.1, ?_⟩
  rw [h.2.1 "a"]
  decide

end WatchTower
